import Mathlib

/-!
Verification of the simulator-backend adapter layer (vunit sim_if slice).

Shallow embedding of the Python sources
`vunit/sim_if/{vcs_setup_file,vcs,iverilog,vivado}.py`.
Strings are modelled as `List Char` (Python `str` of the relevant ASCII
subset); file contents are the exact character sequences the code writes.
-/

abbrev Str := List Char

/-- Model of Python's regex `\s` for `str` patterns (`Py_UNICODE_ISSPACE`):
code points 0x09-0x0D, 0x1C-0x1F, 0x20, 0x85, 0xA0, 0x1680, 0x2000-0x200A,
0x2028, 0x2029, 0x202F, 0x205F and 0x3000. -/
def isPySpace (c : Char) : Bool :=
  decide (9 ≤ c.toNat ∧ c.toNat ≤ 13) || decide (28 ≤ c.toNat ∧ c.toNat ≤ 32) ||
  decide (c.toNat = 133) || decide (c.toNat = 160) || decide (c.toNat = 5760) ||
  decide (8192 ≤ c.toNat ∧ c.toNat ≤ 8202) || decide (c.toNat = 8232) ||
  decide (c.toNat = 8233) || decide (c.toNat = 8239) || decide (c.toNat = 8287) ||
  decide (c.toNat = 12288)

/-- Model of the regex class `[a-zA-Z0-9_]` by code point: digits 0x30-0x39,
uppercase 0x41-0x5A, lowercase 0x61-0x7A, underscore 0x5F. -/
def isWordChar (c : Char) : Bool :=
  decide (48 ≤ c.toNat ∧ c.toNat ≤ 57) || decide (65 ≤ c.toNat ∧ c.toNat ≤ 90) ||
  decide (97 ≤ c.toNat ∧ c.toNat ≤ 122) || decide (c.toNat = 95)

/-- The line boundaries of Python `str.splitlines`: 0x0A-0x0D (LF, VT, FF,
CR), 0x1C-0x1E (FS, GS, RS), 0x85 (NEL), U+2028 and U+2029.  (0x1F is regex
whitespace but not a `splitlines` boundary.) -/
def isLineBreak (c : Char) : Bool :=
  decide (10 ≤ c.toNat ∧ c.toNat ≤ 13) || decide (28 ≤ c.toNat ∧ c.toNat ≤ 30) ||
  decide (c.toNat = 133) || decide (c.toNat = 8232) || decide (c.toNat = 8233)

/-- `consLine c ls` prepends `c` to the first line of `ls`. -/
def consLine (c : Char) : List Str → List Str
  | [] => [[c]]
  | l :: ls => (c :: l) :: ls

/-- Model of Python `str.splitlines`: splits at every `isLineBreak` character,
with the pair CR LF counting as a single boundary, and no empty final line
after a trailing boundary. -/
def splitlines : Str → List Str
  | [] => []
  | [c] => if isLineBreak c then [[]] else [[c]]
  | c :: c2 :: rest =>
    if c = '\r' then
      (if c2 = '\n' then [] :: splitlines rest else [] :: splitlines (c2 :: rest))
    else if isLineBreak c then [] :: splitlines (c2 :: rest)
    else consLine c (splitlines (c2 :: rest))

lemma splitlines_cons_cons (c c2 : Char) (rest : Str) :
    splitlines (c :: c2 :: rest) =
      if c = '\r' then
        (if c2 = '\n' then [] :: splitlines rest else [] :: splitlines (c2 :: rest))
      else if isLineBreak c then [] :: splitlines (c2 :: rest)
      else consLine c (splitlines (c2 :: rest)) := by
  rw [splitlines]

lemma splitlines_not_break_cons (c : Char) (X : Str) (hc : isLineBreak c = false)
    (hne : X ≠ []) : splitlines (c :: X) = consLine c (splitlines X) := by
  have hcr : ¬(c = '\r') := fun e => by rw [e] at hc; exact absurd hc (by decide)
  cases X with
  | nil => exact absurd rfl hne
  | cons c2 rest => rw [splitlines_cons_cons, if_neg hcr, if_neg (by simp [hc])]

/-- Model of Python `"\n".join`. -/
def joinNl : List Str → Str
  | [] => []
  | [l] => l
  | l :: ls => l ++ '\n' :: joinNl ls

/-- Model of `re.match` of `_re_libdefine = r'\s*([a-zA-Z0-9_]+)\s*:\s*(.*?)(#|$)'`
(`vcs_setup_file.py`, line 21).  All the greedy pieces are over character classes
disjoint from what follows them, so the backtracking regex is equivalent to this
deterministic scan; the lazy `(.*?)(#|$)` takes everything up to the first `#`
(or the end of the line).  Returns `group(1)` and `group(2)` on a match. -/
def matchLibdefine (line : Str) : Option (Str × Str) :=
  let s1 := line.dropWhile isPySpace
  let name := s1.takeWhile isWordChar
  if name = [] then none
  else
    match (s1.dropWhile isWordChar).dropWhile isPySpace with
    | [] => none
    | c :: rest =>
      if c = ':' then
        some (name, (rest.dropWhile isPySpace).takeWhile (fun ch => ch != '#'))
      else none

/-- Python `dict.__setitem__` on an insertion-ordered association list:
an existing key keeps its position and gets the new value, a new key is
appended at the end. -/
def insertDef (key val : Str) : List (Str × Str) → List (Str × Str)
  | [] => [(key, val)]
  | (k, v) :: rest => if k = key then (k, val) :: rest else (k, v) :: insertDef key val rest

/-- Python `key in d and d[key] == ...` lookup on the association list. -/
def lookupDef (key : Str) : List (Str × Str) → Option Str
  | [] => none
  | (k, v) :: rest => if k = key then some v else lookupDef key rest

/-- `SetupFile` (vcs_setup_file.py): the dict of library definitions plus the
preserved other lines. -/
structure SetupFile where
  libdefines : List (Str × Str)
  other_lines : List Str
deriving DecidableEq

/-- One step of `SetupFile.parse`'s loop over the lines (lines 32-38). -/
def parseStep (acc : SetupFile) (line : Str) : SetupFile :=
  match matchLibdefine line with
  | none => { acc with other_lines := acc.other_lines ++ [line] }
  | some (n, p) => { acc with libdefines := insertDef n p acc.libdefines }

/-- `SetupFile.parse` (vcs_setup_file.py, lines 23-39). -/
def SetupFile.parse (contents : Str) : SetupFile :=
  (splitlines contents).foldl parseStep ⟨[], []⟩

/-- Python `<` on strings: lexicographic by code point. -/
def strLtb : Str → Str → Bool
  | _, [] => false
  | [], _ :: _ => true
  | a :: as, b :: bs => if a < b then true else if a = b then strLtb as bs else false

/-- Python `<=` on the `(name, path)` tuples compared by `sorted(self.items())`. -/
def pairLeb (x y : Str × Str) : Bool :=
  if strLtb x.1 y.1 then true
  else if x.1 = y.1 then (if strLtb x.2 y.2 then true else decide (x.2 = y.2))
  else false

def pairLe (x y : Str × Str) : Prop := pairLeb x y = true

instance : DecidableRel pairLe := fun x y => instDecidableEqBool (pairLeb x y) true

/-- Python `sorted` on the item list: a stable sort by `pairLe`.
`List.insertionSort` with a reflexive `≤` inserts each earlier element before
later equal ones, which is exactly Python's stable sort. -/
def sortPairs (l : List (Str × Str)) : List (Str × Str) :=
  List.insertionSort pairLe l

/-- The line `'%s : %s' % item` written for one library definition (line 52). -/
def fmtDef (kv : Str × Str) : Str := kv.1 ++ ' ' :: ':' :: ' ' :: kv.2

/-- `SetupFile.write` (vcs_setup_file.py, lines 47-54): other lines first,
then the definitions sorted by `sorted(self.items())`, joined by newlines,
with one trailing newline. -/
def SetupFile.write (f : SetupFile) : Str :=
  joinNl (f.other_lines ++ (sortPairs f.libdefines).map fmtDef) ++ ['\n']

example : SetupFile.parse ("w : a/b\n").data = ⟨[(['w'], ("a/b").data)], []⟩ := by decide
example : SetupFile.write ⟨[(['w'], ("a/b").data)], []⟩ = ("w : a/b\n").data := by decide
example : SetupFile.parse ("n : a#b\n").data = ⟨[(['n'], ['a'])], []⟩ := by decide
example : splitlines ("a\r\nb").data = [['a'], ['b']] := by decide
example : splitlines ("a\x1cb").data = [['a'], ['b']] := by decide
example : splitlines ("a\x1fb").data = [("a\x1fb").data] := by decide
example : splitlines ("\r").data = [[]] := by decide
example : splitlines ("\r\r\n").data = [[], []] := by decide
example : splitlines ("n : a\x0bb\n").data = [("n : a").data, ['b']] := by decide
example : SetupFile.parse ("n : a\x0bb\n").data = ⟨[(['n'], ['a'])], [['b']]⟩ := by decide
example : matchLibdefine ("\x1fn : p").data = some (['n'], ['p']) := by decide
example : matchLibdefine ("n :\xa0 p").data = some (['n'], ['p']) := by decide

lemma strLtb_cons (a b : Char) (as bs : Str) :
    strLtb (a :: as) (b :: bs) = true ↔ (a < b ∨ (a = b ∧ strLtb as bs = true)) := by
  by_cases h1 : a < b
  · simp [strLtb, h1]
  · by_cases h2 : a = b
    · simp [strLtb, h1, h2]
    · simp [strLtb, h1, h2]

lemma strLtb_irrefl (a : Str) : strLtb a a = false := by
  induction a with
  | nil => rfl
  | cons a₀ as ih => simp [strLtb, lt_irrefl, ih]

lemma strLtb_trans (a b c : Str) (h1 : strLtb a b = true) (h2 : strLtb b c = true) :
    strLtb a c = true := by
  induction a generalizing b c with
  | nil =>
    cases b with
    | nil => simp [strLtb] at h1
    | cons b₀ bs =>
      cases c with
      | nil => simp [strLtb] at h2
      | cons c₀ cs => simp [strLtb]
  | cons a₀ as ih =>
    cases b with
    | nil => simp [strLtb] at h1
    | cons b₀ bs =>
      cases c with
      | nil => simp [strLtb] at h2
      | cons c₀ cs =>
        rw [strLtb_cons] at h1 h2 ⊢
        rcases h1 with h1 | ⟨rfl, h1⟩
        · rcases h2 with h2 | ⟨rfl, h2⟩
          · exact Or.inl (lt_trans h1 h2)
          · exact Or.inl h1
        · rcases h2 with h2 | ⟨rfl, h2⟩
          · exact Or.inl h2
          · exact Or.inr ⟨rfl, ih _ _ h1 h2⟩

lemma strLtb_total (a b : Str) : strLtb a b = true ∨ a = b ∨ strLtb b a = true := by
  induction a generalizing b with
  | nil =>
    cases b with
    | nil => exact Or.inr (Or.inl rfl)
    | cons b₀ bs => exact Or.inl (by simp [strLtb])
  | cons a₀ as ih =>
    cases b with
    | nil => exact Or.inr (Or.inr (by simp [strLtb]))
    | cons b₀ bs =>
      rcases lt_trichotomy a₀ b₀ with h | h | h
      · exact Or.inl ((strLtb_cons ..).2 (Or.inl h))
      · rcases ih bs with h2 | h2 | h2
        · exact Or.inl ((strLtb_cons ..).2 (Or.inr ⟨h, h2⟩))
        · exact Or.inr (Or.inl (by rw [h, h2]))
        · exact Or.inr (Or.inr ((strLtb_cons ..).2 (Or.inr ⟨h.symm, h2⟩)))
      · exact Or.inr (Or.inr ((strLtb_cons ..).2 (Or.inl h)))

lemma pairLeb_iff (x y : Str × Str) :
    pairLeb x y = true ↔
      (strLtb x.1 y.1 = true ∨ (x.1 = y.1 ∧ (strLtb x.2 y.2 = true ∨ x.2 = y.2))) := by
  by_cases h1 : strLtb x.1 y.1 = true
  · simp [pairLeb, h1]
  · by_cases h2 : x.1 = y.1
    · by_cases h3 : strLtb x.2 y.2 = true
      · simp [pairLeb, h1, h2, h3]
      · simp [pairLeb, h1, h2, h3]
    · simp [pairLeb, h1, h2]

lemma pairLeb_total (x y : Str × Str) : pairLeb x y = true ∨ pairLeb y x = true := by
  rcases strLtb_total x.1 y.1 with h | h | h
  · exact Or.inl ((pairLeb_iff ..).2 (Or.inl h))
  · rcases strLtb_total x.2 y.2 with h2 | h2 | h2
    · exact Or.inl ((pairLeb_iff ..).2 (Or.inr ⟨h, Or.inl h2⟩))
    · exact Or.inl ((pairLeb_iff ..).2 (Or.inr ⟨h, Or.inr h2⟩))
    · exact Or.inr ((pairLeb_iff ..).2 (Or.inr ⟨h.symm, Or.inl h2⟩))
  · exact Or.inr ((pairLeb_iff ..).2 (Or.inl h))

lemma pairLeb_trans (x y z : Str × Str) (h1 : pairLeb x y = true) (h2 : pairLeb y z = true) :
    pairLeb x z = true := by
  rw [pairLeb_iff] at h1 h2 ⊢
  rcases h1 with h1 | ⟨e1, h1⟩
  · rcases h2 with h2 | ⟨e2, _⟩
    · exact Or.inl (strLtb_trans _ _ _ h1 h2)
    · exact Or.inl (e2 ▸ h1)
  · rcases h2 with h2 | ⟨e2, h2⟩
    · exact Or.inl (e1 ▸ h2)
    · refine Or.inr ⟨e1.trans e2, ?_⟩
      rcases h1 with h1 | h1
      · rcases h2 with h2 | h2
        · exact Or.inl (strLtb_trans _ _ _ h1 h2)
        · exact Or.inl (h2 ▸ h1)
      · rcases h2 with h2 | h2
        · exact Or.inl (h1 ▸ h2)
        · exact Or.inr (h1.trans h2)

instance : IsTotal (Str × Str) pairLe := ⟨fun x y => pairLeb_total x y⟩

instance : IsTrans (Str × Str) pairLe := ⟨fun x y z => pairLeb_trans x y z⟩

lemma sortPairs_perm (l : List (Str × Str)) : List.Perm (sortPairs l) l :=
  List.perm_insertionSort pairLe l

lemma sortPairs_idem (l : List (Str × Str)) : sortPairs (sortPairs l) = sortPairs l :=
  (List.sorted_insertionSort pairLe l).insertionSort_eq

lemma splitlines_append (l r : Str) (h : ∀ c ∈ l, isLineBreak c = false) :
    splitlines (l ++ '\n' :: r) = l :: splitlines r := by
  induction l with
  | nil =>
    show splitlines ('\n' :: r) = [] :: splitlines r
    cases r with
    | nil => rfl
    | cons c2 r2 => rw [splitlines_cons_cons, if_neg (by decide), if_pos (by decide)]
  | cons c cs ih =>
    have hc : isLineBreak c = false := h c (List.mem_cons_self _ _)
    have hcs : ∀ x ∈ cs, isLineBreak x = false := fun x hx => h x (List.mem_cons_of_mem _ hx)
    rw [List.cons_append, splitlines_not_break_cons c _ hc (by simp), ih hcs, consLine]

lemma mem_splitlines_no_break_aux : ∀ (n : Nat) (s : Str), s.length ≤ n →
    ∀ l ∈ splitlines s, ∀ c ∈ l, isLineBreak c = false := by
  intro n
  induction n with
  | zero =>
    intro s hs l hl
    have hse : s = [] := List.length_eq_zero.1 (Nat.le_zero.1 hs)
    subst hse
    simp [splitlines] at hl
  | succ n ih =>
    intro s hs l hl
    cases s with
    | nil => simp [splitlines] at hl
    | cons c rest =>
      cases rest with
      | nil =>
        by_cases hb : isLineBreak c = true
        · rw [show splitlines [c] = [[]] from by simp [splitlines, hb]] at hl
          rcases List.mem_singleton.1 hl with rfl
          intro x hx
          simp at hx
        · have hbf : isLineBreak c = false := by revert hb; cases isLineBreak c <;> simp
          rw [show splitlines [c] = [[c]] from by simp [splitlines, hbf]] at hl
          rcases List.mem_singleton.1 hl with rfl
          intro x hx
          rcases List.mem_singleton.1 hx with rfl
          exact hbf
      | cons c2 rest2 =>
        have hlen : (c2 :: rest2).length ≤ n := by simp at hs ⊢; omega
        have hlen2 : rest2.length ≤ n := by simp at hs; omega
        by_cases hcr : c = '\r'
        · subst hcr
          by_cases h2 : c2 = '\n'
          · subst h2
            rw [show splitlines ('\r' :: '\n' :: rest2) = [] :: splitlines rest2 from by
              rw [splitlines_cons_cons]; simp] at hl
            rcases List.mem_cons.1 hl with rfl | hl
            · intro x hx; simp at hx
            · exact ih rest2 hlen2 l hl
          · rw [show splitlines ('\r' :: c2 :: rest2) = [] :: splitlines (c2 :: rest2) from by
              rw [splitlines_cons_cons]; simp [h2]] at hl
            rcases List.mem_cons.1 hl with rfl | hl
            · intro x hx; simp at hx
            · exact ih _ hlen l hl
        · by_cases hb : isLineBreak c = true
          · rw [show splitlines (c :: c2 :: rest2) = [] :: splitlines (c2 :: rest2) from by
              rw [splitlines_cons_cons, if_neg hcr, if_pos hb]] at hl
            rcases List.mem_cons.1 hl with rfl | hl
            · intro x hx; simp at hx
            · exact ih _ hlen l hl
          · have hbf : isLineBreak c = false := by revert hb; cases isLineBreak c <;> simp
            rw [show splitlines (c :: c2 :: rest2) = consLine c (splitlines (c2 :: rest2)) from by
              rw [splitlines_cons_cons, if_neg hcr, if_neg hb]] at hl
            cases hsp : splitlines (c2 :: rest2) with
            | nil =>
              rw [hsp, consLine] at hl
              rcases List.mem_singleton.1 hl with rfl
              intro x hx
              rcases List.mem_singleton.1 hx with rfl
              exact hbf
            | cons l₀ ls =>
              rw [hsp, consLine] at hl
              rcases List.mem_cons.1 hl with rfl | hl
              · intro x hx
                rcases List.mem_cons.1 hx with rfl | hx2
                · exact hbf
                · exact ih _ hlen l₀ (by rw [hsp]; exact List.mem_cons_self _ _) x hx2
              · exact ih _ hlen l (by rw [hsp]; exact List.mem_cons_of_mem _ hl)

/-- Every line produced by `splitlines` is free of line-boundary characters. -/
lemma mem_splitlines_no_break (s : Str) : ∀ l ∈ splitlines s, ∀ c ∈ l, isLineBreak c = false :=
  mem_splitlines_no_break_aux s.length s le_rfl

lemma splitlines_joinNl (ls : List Str) (h : ∀ l ∈ ls, ∀ c ∈ l, isLineBreak c = false)
    (hne : ls ≠ []) : splitlines (joinNl ls ++ ['\n']) = ls := by
  induction ls with
  | nil => exact absurd rfl hne
  | cons l ls ih =>
    cases ls with
    | nil =>
      have h1 : splitlines (l ++ '\n' :: []) = l :: splitlines [] :=
        splitlines_append l [] (h l (List.mem_cons_self _ _))
      simpa [joinNl, splitlines] using h1
    | cons l₂ ls₂ =>
      have hj : joinNl (l :: l₂ :: ls₂) = l ++ '\n' :: joinNl (l₂ :: ls₂) := rfl
      rw [hj, List.append_assoc, List.cons_append,
        splitlines_append l _ (h l (List.mem_cons_self _ _)),
        ih (fun x hx => h x (List.mem_cons_of_mem _ hx)) (by simp)]

lemma isWordChar_not_space (c : Char) (h : isWordChar c = true) : isPySpace c = false := by
  simp only [isWordChar, Bool.or_eq_true, decide_eq_true_eq] at h
  rw [Bool.eq_false_iff]
  intro hs
  simp only [isPySpace, Bool.or_eq_true, decide_eq_true_eq] at hs
  omega

lemma isWordChar_not_break (c : Char) (h : isWordChar c = true) : isLineBreak c = false := by
  simp only [isWordChar, Bool.or_eq_true, decide_eq_true_eq] at h
  rw [Bool.eq_false_iff]
  intro hs
  simp only [isLineBreak, Bool.or_eq_true, decide_eq_true_eq] at hs
  omega

lemma takeWhile_append_cons (p : Char → Bool) (l : Str) (x : Char) (r : Str)
    (hl : ∀ c ∈ l, p c = true) (hx : p x = false) :
    (l ++ x :: r).takeWhile p = l := by
  induction l with
  | nil => simp [List.takeWhile_cons, hx]
  | cons a l ih =>
    have ha : p a = true := hl a (List.mem_cons_self _ _)
    simp [List.takeWhile_cons, ha, ih (fun c hc => hl c (List.mem_cons_of_mem _ hc))]

lemma dropWhile_append_cons (p : Char → Bool) (l : Str) (x : Char) (r : Str)
    (hl : ∀ c ∈ l, p c = true) (hx : p x = false) :
    (l ++ x :: r).dropWhile p = x :: r := by
  induction l with
  | nil => simp [List.dropWhile_cons, hx]
  | cons a l ih =>
    have ha : p a = true := hl a (List.mem_cons_self _ _)
    simp [List.dropWhile_cons, ha, ih (fun c hc => hl c (List.mem_cons_of_mem _ hc))]

lemma takeWhile_eq_self (p : Char → Bool) (l : Str) (h : ∀ c ∈ l, p c = true) :
    l.takeWhile p = l := by
  induction l with
  | nil => rfl
  | cons a l ih =>
    simp [List.takeWhile_cons, h a (List.mem_cons_self _ _),
      ih (fun c hc => h c (List.mem_cons_of_mem _ hc))]

/-- Model of the library-path constraint used for the round-trip results:
a path whose head (if any) is not whitespace. -/
def headNotSpace : Str → Bool
  | [] => true
  | c :: _ => !isPySpace c

lemma dropWhile_space_eq_self (l : Str) (h : headNotSpace l = true) :
    l.dropWhile isPySpace = l := by
  cases l with
  | nil => rfl
  | cons c cs =>
    have : isPySpace c = false := by
      simpa [headNotSpace] using h
    simp [List.dropWhile_cons, this]

/-- Well-formedness of one library definition for which `write` then `parse`
recovers it exactly: the name is a nonempty `[a-zA-Z0-9_]+` word, the path
contains no `#` (the regex's comment marker) and no line-boundary character
(LF, VT, FF, CR, FS, GS, RS, NEL, U+2028, U+2029), and does not begin with
regex whitespace. -/
def WFDefEntry (kv : Str × Str) : Prop :=
  kv.1 ≠ [] ∧ kv.1.all isWordChar = true ∧
  ('#' ∉ kv.2 ∧ kv.2.all (fun c => !isLineBreak c) = true) ∧ headNotSpace kv.2 = true

instance (kv : Str × Str) : Decidable (WFDefEntry kv) := by
  unfold WFDefEntry; infer_instance

lemma matchLibdefine_fmtDef (n p : Str) (h : WFDefEntry (n, p)) :
    matchLibdefine (fmtDef (n, p)) = some (n, p) := by
  obtain ⟨hne, hword, ⟨hp1, hp2⟩, hhead⟩ := h
  have hword' : ∀ c ∈ n, isWordChar c = true := List.all_eq_true.1 hword
  have hline : fmtDef (n, p) = n ++ ' ' :: ':' :: ' ' :: p := rfl
  have hd1 : (n ++ ' ' :: ':' :: ' ' :: p).dropWhile isPySpace = n ++ ' ' :: ':' :: ' ' :: p := by
    cases n with
    | nil => exact absurd rfl hne
    | cons n₀ ns =>
      have h0 : isPySpace n₀ = false :=
        isWordChar_not_space _ (hword' n₀ (List.mem_cons_self _ _))
      simp [List.dropWhile_cons, h0]
  have ht : (n ++ ' ' :: ':' :: ' ' :: p).takeWhile isWordChar = n :=
    takeWhile_append_cons _ _ _ _ hword' (by decide)
  have hd2 : (n ++ ' ' :: ':' :: ' ' :: p).dropWhile isWordChar = ' ' :: ':' :: ' ' :: p :=
    dropWhile_append_cons _ _ _ _ hword' (by decide)
  have hd3 : ((' ' :: ':' :: ' ' :: p : Str)).dropWhile isPySpace = ':' :: ' ' :: p := by
    simp [List.dropWhile_cons, show isPySpace ' ' = true by decide,
      show isPySpace ':' = false by decide]
  have hd4 : ((' ' :: p : Str)).dropWhile isPySpace = p := by
    rw [List.dropWhile_cons]
    simp only [show isPySpace ' ' = true from rfl, if_true]
    exact dropWhile_space_eq_self p hhead
  have ht2 : p.takeWhile (fun ch => ch != '#') = p := by
    refine takeWhile_eq_self _ _ (fun c hc => ?_)
    exact bne_iff_ne.2 (fun e => hp1 (e ▸ hc))
  rw [hline, matchLibdefine]
  simp only [hd1, ht, hd2, hd3, hd4, ht2]
  simp [hne]

lemma head_dropWhile_not (p : Char → Bool) :
    ∀ (l : Str) (c : Char) (t : Str), l.dropWhile p = c :: t → p c = false := by
  intro l
  induction l with
  | nil => intro c t h; simp [List.dropWhile] at h
  | cons a l ih =>
    intro c t h
    rw [List.dropWhile_cons] at h
    by_cases ha : p a = true
    · rw [if_pos ha] at h
      exact ih c t h
    · rw [if_neg ha] at h
      have hac : a = c := by injection h
      rw [← hac]
      cases hpa : p a with
      | false => rfl
      | true => exact absurd hpa ha

lemma matchLibdefine_some_wf (line n p : Str)
    (hline : ∀ c ∈ line, isLineBreak c = false)
    (h : matchLibdefine line = some (n, p)) : WFDefEntry (n, p) := by
  simp only [matchLibdefine] at h
  split at h
  · exact absurd h (by simp)
  · rename_i hname
    split at h
    · exact absurd h (by simp)
    · rename_i c rest heq
      split at h
      · rename_i hc
        have h2 : ((line.dropWhile isPySpace).takeWhile isWordChar = n ∧
            (rest.dropWhile isPySpace).takeWhile (fun ch => ch != '#') = p) := by
          simpa using h
        obtain ⟨rfl, rfl⟩ := h2
        refine ⟨hname, ?_, ⟨?_, ?_⟩, ?_⟩
        · exact List.all_eq_true.2 (fun c hc => List.mem_takeWhile_imp hc)
        · intro m
          have := List.mem_takeWhile_imp m
          simp at this
        · refine List.all_eq_true.2 (fun x hx => ?_)
          have m1 : x ∈ rest.dropWhile isPySpace := (List.takeWhile_sublist _).subset hx
          have m2 : x ∈ rest := (List.dropWhile_sublist _).subset m1
          have m3 : x ∈ c :: rest := List.mem_cons_of_mem _ m2
          rw [← heq] at m3
          have m4 : x ∈ (line.dropWhile isPySpace).dropWhile isWordChar :=
            (List.dropWhile_sublist _).subset m3
          have m5 : x ∈ line :=
            (List.dropWhile_sublist _).subset ((List.dropWhile_sublist _).subset m4)
          show (!isLineBreak x) = true
          rw [hline x m5]
          rfl
        · cases hdp : rest.dropWhile isPySpace with
          | nil => rfl
          | cons d t =>
            have hd : isPySpace d = false := head_dropWhile_not _ rest d t hdp
            rw [List.takeWhile_cons]
            by_cases hdq : (d != '#') = true
            · rw [if_pos hdq]
              simp [headNotSpace, hd]
            · rw [if_neg hdq]
              rfl
      · exact absurd h (by simp)

lemma insertDef_wf (n p : Str) (d : List (Str × Str)) (hd : ∀ kv ∈ d, WFDefEntry kv)
    (hnp : WFDefEntry (n, p)) : ∀ kv ∈ insertDef n p d, WFDefEntry kv := by
  induction d with
  | nil =>
    intro kv hkv
    rcases List.mem_singleton.1 hkv with rfl
    exact hnp
  | cons kv₀ d ih =>
    obtain ⟨k, v⟩ := kv₀
    intro kv hkv
    rw [insertDef] at hkv
    by_cases hk : k = n
    · rw [if_pos hk] at hkv
      rcases List.mem_cons.1 hkv with rfl | hkv
      · subst hk
        exact hnp
      · exact hd kv (List.mem_cons_of_mem _ hkv)
    · rw [if_neg hk] at hkv
      rcases List.mem_cons.1 hkv with rfl | hkv
      · exact hd (k, v) (List.mem_cons_self _ _)
      · exact ih (fun x hx => hd x (List.mem_cons_of_mem _ hx)) kv hkv

lemma insertDef_keys (n p : Str) (d : List (Str × Str)) :
    (insertDef n p d).map Prod.fst =
      if n ∈ d.map Prod.fst then d.map Prod.fst else d.map Prod.fst ++ [n] := by
  induction d with
  | nil => simp [insertDef]
  | cons kv d ih =>
    obtain ⟨k, v⟩ := kv
    by_cases hk : k = n
    · subst hk
      simp [insertDef]
    · rw [insertDef, if_neg hk]
      have hnk : ¬(n = k) := fun e => hk e.symm
      simp only [List.map_cons, ih]
      by_cases hm : n ∈ d.map Prod.fst
      · simp [hm, hnk]
      · simp [hm, hnk]

lemma insertDef_keys_nodup (n p : Str) (d : List (Str × Str))
    (h : (d.map Prod.fst).Nodup) : ((insertDef n p d).map Prod.fst).Nodup := by
  rw [insertDef_keys]
  by_cases hm : n ∈ d.map Prod.fst
  · simpa [hm] using h
  · rw [if_neg hm]
    rw [List.nodup_append]
    exact ⟨h, List.nodup_singleton n, fun a ha hb => hm ((List.mem_singleton.1 hb) ▸ ha)⟩

lemma insertDef_not_mem (n p : Str) (d : List (Str × Str)) (h : n ∉ d.map Prod.fst) :
    insertDef n p d = d ++ [(n, p)] := by
  induction d with
  | nil => rfl
  | cons kv d ih =>
    obtain ⟨k, v⟩ := kv
    have hk : ¬(k = n) := fun e => h (by rw [List.map_cons]; exact e ▸ List.mem_cons_self _ _)
    rw [insertDef, if_neg hk, List.cons_append,
      ih (fun m => h (by rw [List.map_cons]; exact List.mem_cons_of_mem _ m))]

lemma lookupDef_insertDef_self (n p : Str) (d : List (Str × Str)) :
    lookupDef n (insertDef n p d) = some p := by
  induction d with
  | nil => simp [insertDef, lookupDef]
  | cons kv d ih =>
    obtain ⟨k, v⟩ := kv
    by_cases hk : k = n
    · rw [insertDef, if_pos hk, lookupDef, if_pos hk]
    · rw [insertDef, if_neg hk, lookupDef, if_neg hk]
      exact ih

lemma lookupDef_eq_some_iff (k : Str) (v : Str) (d : List (Str × Str))
    (hnd : (d.map Prod.fst).Nodup) : lookupDef k d = some v ↔ (k, v) ∈ d := by
  induction d with
  | nil => simp [lookupDef]
  | cons kv d ih =>
    obtain ⟨k₀, v₀⟩ := kv
    rw [List.map_cons, List.nodup_cons] at hnd
    by_cases hk : k₀ = k
    · subst hk
      rw [lookupDef, if_pos rfl]
      constructor
      · intro h
        rcases Option.some.inj h with rfl
        exact List.mem_cons_self _ _
      · intro h
        rcases List.mem_cons.1 h with h | h
        · rcases Prod.mk.injEq .. ▸ h with ⟨_, rfl⟩
          rfl
        · exact absurd (List.mem_map_of_mem Prod.fst h) hnd.1
    · rw [lookupDef, if_neg hk, ih hnd.2]
      constructor
      · exact fun h => List.mem_cons_of_mem _ h
      · intro h
        rcases List.mem_cons.1 h with h | h
        · exact absurd (congrArg Prod.fst h).symm hk
        · exact h

lemma lookupDef_perm (d d' : List (Str × Str)) (hperm : List.Perm d d')
    (hnd : (d.map Prod.fst).Nodup) (k : Str) : lookupDef k d = lookupDef k d' := by
  have hnd' : (d'.map Prod.fst).Nodup := ((hperm.map Prod.fst).nodup_iff).1 hnd
  cases h : lookupDef k d with
  | some v =>
    exact ((lookupDef_eq_some_iff k v d' hnd').2
      (hperm.mem_iff.1 ((lookupDef_eq_some_iff k v d hnd).1 h))).symm
  | none =>
    cases h' : lookupDef k d' with
    | none => rfl
    | some v =>
      have : lookupDef k d = some v := (lookupDef_eq_some_iff k v d hnd).2
        (hperm.mem_iff.2 ((lookupDef_eq_some_iff k v d' hnd').1 h'))
      rw [h] at this
      exact absurd this (by simp)

lemma foldl_insertDef_nodup (L : List (Str × Str)) (d : List (Str × Str))
    (hnd : (L.map Prod.fst).Nodup)
    (hdisj : ∀ k ∈ L.map Prod.fst, k ∉ d.map Prod.fst) :
    L.foldl (fun acc kv => insertDef kv.1 kv.2 acc) d = d ++ L := by
  induction L generalizing d with
  | nil => simp
  | cons kv L ih =>
    rw [List.map_cons, List.nodup_cons] at hnd
    rw [List.foldl_cons, insertDef_not_mem _ _ _ (hdisj kv.1 (by simp)), ih _ hnd.2]
    · simp
    · intro k hkL
      rw [List.map_append]
      intro hm
      rcases List.mem_append.1 hm with hm | hm
      · exact hdisj k (by rw [List.map_cons]; exact List.mem_cons_of_mem _ hkL) hm
      · have ek : k = kv.1 := by simpa using hm
        exact hnd.1 (ek ▸ hkL)

/-- Invariant of every `SetupFile` produced by `SetupFile.parse`: all library
definitions are well formed with distinct names, and every preserved line
fails the library-definition regex and contains no line-boundary character. -/
def SetupWF (f : SetupFile) : Prop :=
  (∀ kv ∈ f.libdefines, WFDefEntry kv) ∧ (f.libdefines.map Prod.fst).Nodup ∧
  (∀ l ∈ f.other_lines, matchLibdefine l = none ∧ ∀ c ∈ l, isLineBreak c = false)

lemma parseStep_wf (acc : SetupFile) (line : Str) (hacc : SetupWF acc)
    (hline : ∀ c ∈ line, isLineBreak c = false) : SetupWF (parseStep acc line) := by
  obtain ⟨h1, h2, h3⟩ := hacc
  cases hm : matchLibdefine line with
  | none =>
    rw [show parseStep acc line = ⟨acc.libdefines, acc.other_lines ++ [line]⟩ from by
      simp [parseStep, hm]]
    refine ⟨h1, h2, ?_⟩
    intro l hl
    rcases List.mem_append.1 hl with hl | hl
    · exact h3 l hl
    · rcases List.mem_singleton.1 hl with rfl
      exact ⟨hm, hline⟩
  | some np =>
    obtain ⟨nn, pp⟩ := np
    rw [show parseStep acc line = ⟨insertDef nn pp acc.libdefines, acc.other_lines⟩ from by
      simp [parseStep, hm]]
    have hwf : WFDefEntry (nn, pp) := matchLibdefine_some_wf line nn pp hline hm
    exact ⟨insertDef_wf _ _ _ h1 hwf, insertDef_keys_nodup _ _ _ h2, h3⟩

lemma foldl_parseStep_wf (ls : List Str)
    (h : ∀ l ∈ ls, ∀ c ∈ l, isLineBreak c = false) :
    ∀ (acc : SetupFile), SetupWF acc → SetupWF (ls.foldl parseStep acc) := by
  induction ls with
  | nil => intro acc hacc; simpa using hacc
  | cons l ls ih =>
    intro acc hacc
    rw [List.foldl_cons]
    exact ih (fun x hx => h x (List.mem_cons_of_mem _ hx)) _
      (parseStep_wf acc l hacc (h l (List.mem_cons_self _ _)))

lemma parse_wf (c : Str) : SetupWF (SetupFile.parse c) := by
  rw [SetupFile.parse]
  exact foldl_parseStep_wf _ (mem_splitlines_no_break c) _ ⟨by simp, by simp, by simp⟩

lemma foldl_parseStep_others (ls : List Str) (acc : SetupFile)
    (h : ∀ l ∈ ls, matchLibdefine l = none) :
    ls.foldl parseStep acc = ⟨acc.libdefines, acc.other_lines ++ ls⟩ := by
  induction ls generalizing acc with
  | nil => simp
  | cons l ls ih =>
    rw [List.foldl_cons,
      show parseStep acc l = ⟨acc.libdefines, acc.other_lines ++ [l]⟩ from by
        simp [parseStep, h l (List.mem_cons_self _ _)],
      ih _ (fun x hx => h x (List.mem_cons_of_mem _ hx))]
    simp

lemma foldl_parseStep_defs (L : List (Str × Str)) (acc : SetupFile)
    (h : ∀ kv ∈ L, WFDefEntry kv) :
    (L.map fmtDef).foldl parseStep acc =
      ⟨L.foldl (fun d kv => insertDef kv.1 kv.2 d) acc.libdefines, acc.other_lines⟩ := by
  induction L generalizing acc with
  | nil => simp
  | cons kv L ih =>
    obtain ⟨n, p⟩ := kv
    rw [List.map_cons, List.foldl_cons, List.foldl_cons,
      show parseStep acc (fmtDef (n, p)) = ⟨insertDef n p acc.libdefines, acc.other_lines⟩ from by
        simp [parseStep, matchLibdefine_fmtDef n p (h (n, p) (List.mem_cons_self _ _))],
      ih _ (fun x hx => h x (List.mem_cons_of_mem _ hx))]

lemma fmtDef_no_break (kv : Str × Str) (h : WFDefEntry kv) :
    ∀ c ∈ fmtDef kv, isLineBreak c = false := by
  obtain ⟨_, hword, ⟨_, hp2⟩, _⟩ := h
  intro c m
  rcases List.mem_append.1 m with m | m
  · exact isWordChar_not_break c (List.all_eq_true.1 hword c m)
  · rcases List.mem_cons.1 m with rfl | m
    · decide
    · rcases List.mem_cons.1 m with rfl | m
      · decide
      · rcases List.mem_cons.1 m with rfl | m
        · decide
        · have h2 := List.all_eq_true.1 hp2 c m
          simpa using h2

lemma sortPairs_wf (L : List (Str × Str)) (h : ∀ kv ∈ L, WFDefEntry kv) :
    ∀ kv ∈ sortPairs L, WFDefEntry kv :=
  fun kv hkv => h kv ((sortPairs_perm L).mem_iff.1 hkv)

lemma sortPairs_keys_nodup (L : List (Str × Str)) (h : (L.map Prod.fst).Nodup) :
    ((sortPairs L).map Prod.fst).Nodup :=
  (((sortPairs_perm L).map Prod.fst).nodup_iff).2 h

/-- Parsing a just-written setup file recovers the preserved lines verbatim and
the library definitions in name-sorted order, whenever the definitions are
round-trip well formed. -/
lemma parse_write (f : SetupFile) (hdef : ∀ kv ∈ f.libdefines, WFDefEntry kv)
    (hnd : (f.libdefines.map Prod.fst).Nodup)
    (hoth : ∀ l ∈ f.other_lines, matchLibdefine l = none ∧ ∀ c ∈ l, isLineBreak c = false)
    (hne : f.other_lines ≠ [] ∨ f.libdefines ≠ []) :
    SetupFile.parse (SetupFile.write f) = ⟨sortPairs f.libdefines, f.other_lines⟩ := by
  have hwfsort := sortPairs_wf f.libdefines hdef
  have hnl : ∀ l ∈ f.other_lines ++ (sortPairs f.libdefines).map fmtDef,
      ∀ c ∈ l, isLineBreak c = false := by
    intro l hl
    rcases List.mem_append.1 hl with h | h
    · exact (hoth l h).2
    · obtain ⟨kv, hkv, rfl⟩ := List.mem_map.1 h
      exact fmtDef_no_break kv (hwfsort kv hkv)
  have hlsne : f.other_lines ++ (sortPairs f.libdefines).map fmtDef ≠ [] := by
    intro e
    rcases hne with h | h
    · exact h (List.append_eq_nil.1 e).1
    · have h2 : sortPairs f.libdefines = [] := List.map_eq_nil_iff.1 (List.append_eq_nil.1 e).2
      have h3 := (sortPairs_perm f.libdefines).length_eq
      rw [h2] at h3
      exact h (List.length_eq_zero.1 h3.symm)
  rw [SetupFile.parse, SetupFile.write, splitlines_joinNl _ hnl hlsne, List.foldl_append,
    foldl_parseStep_others f.other_lines ⟨[], []⟩ (fun l hl => (hoth l hl).1),
    foldl_parseStep_defs _ _ hwfsort,
    foldl_insertDef_nodup _ _ (sortPairs_keys_nodup _ hnd) (by simp)]
  simp

/-- The byte-level round-trip law: writing, parsing, and writing again is the
identity on the written bytes, for round-trip well-formed contents. -/
lemma write_parse_write (f : SetupFile) (hdef : ∀ kv ∈ f.libdefines, WFDefEntry kv)
    (hnd : (f.libdefines.map Prod.fst).Nodup)
    (hoth : ∀ l ∈ f.other_lines, matchLibdefine l = none ∧ ∀ c ∈ l, isLineBreak c = false) :
    SetupFile.write (SetupFile.parse (SetupFile.write f)) = SetupFile.write f := by
  by_cases hne : f.other_lines = [] ∧ f.libdefines = []
  · obtain ⟨f1, f2⟩ := f
    obtain ⟨h1, h2⟩ := hne
    simp only at h1 h2
    subst h1
    subst h2
    decide
  · rw [not_and_or] at hne
    have hne' : f.other_lines ≠ [] ∨ f.libdefines ≠ [] := by
      rcases hne with h | h
      · exact Or.inl h
      · exact Or.inr h
    rw [parse_write f hdef hnd hoth hne', SetupFile.write, SetupFile.write]
    simp [sortPairs_idem]

/-- Model of `os.path.join(a, b)` for the uses in this code (second argument a
relative name): `a ++ "/" ++ b`. -/
def pathJoin (a b : Str) : Str := a ++ '/' :: b

/-- Strip trailing slashes (the `rstrip('/')` step of `posixpath.dirname`). -/
def rstripSlash (s : Str) : Str := (s.reverse.dropWhile (fun c => c = '/')).reverse

/-- Model of `os.path.dirname` (posixpath): characters up to and including the
last `/`, with trailing slashes stripped unless the head is all slashes. -/
def dirname (s : Str) : Str :=
  let head := (s.reverse.dropWhile (fun c => c != '/')).reverse
  if head.all (fun c => c = '/') then head else rstripSlash head

/-- Model of `os.path.basename`: the characters after the last `/`. -/
def basename (s : Str) : Str := (s.reverse.takeWhile (fun c => c != '/')).reverse

/-- Model of `str(pathlib.Path(s).parent)` for the paths used here: the
directory part, `"."` for a bare name, `"/"` for a root child.  (Trailing or
doubled slashes, which `pathlib` also normalises, are not modelled.) -/
def pyParent (s : Str) : Str :=
  let d := dirname s
  if d = [] then (if s.head? = some '/' then ['/'] else ['.']) else d

/-- Model of `os.path.splitext(b)[0]` on a basename: drop the suffix starting
at the last dot, except when everything before that dot is dots. -/
def splitextStem (b : Str) : Str :=
  match b.reverse.dropWhile (fun c => c != '.') with
  | [] => b
  | _ :: rest => if rest.reverse.all (fun c => c = '.') then b else rest.reverse

/-- Model of Python `value.replace('"', '\\"')` (vcs.py line 212, iverilog.py
line 121, vivado.py line 121): each double quote gets one backslash prefix. -/
def escapeQuotes : Str → Str
  | [] => []
  | c :: rest => if c = '"' then '\\' :: '"' :: escapeQuotes rest else c :: escapeQuotes rest

/-- Modelled from the spec: `vunit.hashing.hash_string` is not under `src/`;
the spec only requires the preprocessing directory name to be a deterministic,
collision-free function of the source file's parent directory ("different
parents never collide"), so the hash is modelled as an injective encoding. -/
def hash_string (s : Str) : Str := s

example : dirname ("a/b").data = ['a'] := by decide
example : dirname ("/b").data = ['/'] := by decide
example : dirname ("b").data = [] := by decide
example : basename ("a/b.sv").data = ("b.sv").data := by decide
example : pyParent ("/s/a.sv").data = ("/s").data := by decide
example : pyParent ("a.sv").data = ['.'] := by decide
example : splitextStem ("a.b.sv").data = ("a.b").data := by decide
example : splitextStem (".bashrc").data = (".bashrc").data := by decide
example : escapeQuotes ("a\"b").data = ("a\\\"b").data := by decide

/-- File kinds distinguished by `source_file.is_vhdl` / `is_any_verilog`
(project code outside this slice; the dispatch in the adapters needs exactly
this classification). -/
inductive FileKind
  | vhdl
  | verilog
  | systemVerilog
  | unknown
deriving DecidableEq

/-- Modelled from the spec: `vunit.vhdl_standard.VHDL` is not under `src/`;
the four revisions its `STD_*` constants provide (and which `vcs.py` lines
156-165 dispatch on) are modelled as an enumeration. -/
inductive VHDLStd
  | std1993
  | std2002
  | std2008
  | std2019
deriving DecidableEq

/-- The source-file descriptor fields read by the compile-command builders. -/
structure SourceFile where
  name : Str
  library_name : Str
  include_dirs : List Str
  defines : List (Str × Str)
  compile_options : List (Str × List Str)
  vhdl_standard : VHDLStd
  kind : FileKind
deriving DecidableEq

/-- `source_file.is_vhdl`. -/
def SourceFile.is_vhdl (sf : SourceFile) : Bool := sf.kind = FileKind.vhdl

/-- `source_file.is_any_verilog` (Verilog or SystemVerilog). -/
def SourceFile.is_any_verilog (sf : SourceFile) : Bool :=
  sf.kind = FileKind.verilog || sf.kind = FileKind.systemVerilog

/-- Association-list lookup for option lists. -/
def lookupOpts (key : Str) : List (Str × List Str) → Option (List Str)
  | [] => none
  | (k, v) :: rest => if k = key then some v else lookupOpts key rest

/-- `compile_options.get(key, [])`. -/
def getOption (key : Str) (opts : List (Str × List Str)) : List Str :=
  match lookupOpts key opts with
  | none => []
  | some v => v

/-- Result of a compile-command builder: the returned argument vector, the
`.args` file path, and the exact character content written to it. -/
structure CompileCmd where
  argv : List Str
  argsPath : Str
  argsContent : Str
deriving DecidableEq

/-- One `+define+NAME=value` token per macro entry, with double quotes in the
value escaped (vcs.py lines 211-212). -/
def vcsDefineArgs (defines : List (Str × Str)) : List Str :=
  defines.map (fun kv => ("+define+").data ++ kv.1 ++ '=' :: escapeQuotes kv.2)

/-- One `-D NAME=value` flag pair per macro entry, with double quotes in the
value escaped (iverilog.py lines 120-121). -/
def iverilogDefineArgs (defines : List (Str × Str)) : List Str :=
  defines.flatMap (fun kv => [("-D").data, kv.1 ++ '=' :: escapeQuotes kv.2])

/-- The fields of `VCSInterface` read by its command builders (vcs.py):
`self._prefix` (called `prefixDir` here), `self._output_path`,
`self._log_level` (only compared against `"debug"`; `None` is any other
string), `self._gui`. -/
structure VCSState where
  prefixDir : Str
  output_path : Str
  log_level : Str
  gui : Bool
deriving DecidableEq

/-- `VCSInterface._vhdl_std_opt` (vcs.py lines 151-165): the fixed mapping from
the declared VHDL revision to the VCS switch; 1993 maps to the empty string
(the tool default).  The `assert False` arm is unreachable because the four
`VHDL.STD_*` constants are the only values of the type. -/
def vcsVhdlStdOpt : VHDLStd → Str
  | VHDLStd.std2002 => ("-vhdl08").data
  | VHDLStd.std2008 => ("-vhdl08").data
  | VHDLStd.std2019 => ("-vhdl08").data
  | VHDLStd.std1993 => []

/-- `VCSInterface.compile_vhdl_file_command` (vcs.py lines 167-188). -/
def vcsCompileVhdlFileCommand (st : VCSState) (sf : SourceFile) : CompileCmd :=
  let cmd := pathJoin st.prefixDir ("vhdlan").data
  let args : List Str :=
    [("-kdb").data, ("-sparse_mem 20").data, vcsVhdlStdOpt sf.vhdl_standard,
      ("-work ").data ++ sf.library_name,
      ("-l ").data ++ st.output_path ++ ("/vcs_compile_vhdl_file_").data ++
        sf.library_name ++ (".log").data] ++
    (if st.log_level = ("debug").data then [("-verbose").data]
      else [("-q").data, ("-nc").data]) ++
    getOption ("vhdl_flags").data sf.compile_options ++
    [sf.name]
  { argv := cmd :: ("-full64").data :: args,
    argsPath := st.output_path ++ ("/vcs_compile_vhdl_file_").data ++
      sf.library_name ++ (".args").data,
    argsContent := joinNl args }

/-- `VCSInterface.compile_verilog_file_command` (vcs.py lines 190-219). -/
def vcsCompileVerilogFileCommand (st : VCSState) (sf : SourceFile) : CompileCmd :=
  let cmd := pathJoin st.prefixDir ("vlogan").data
  let args : List Str :=
    [("-kdb").data, ("-sverilog").data, ("+v2k").data,
      ("-work ").data ++ sf.library_name] ++
    getOption ("vlogan_flags").data sf.compile_options ++
    [("-l ").data ++ st.output_path ++ ("/vcs_compile_verilog_file_").data ++
      sf.library_name ++ (".log").data] ++
    (if st.log_level = ("debug").data then
      [("-V").data, ("-notice").data, ("+libverbose").data]
      else [("-q").data, ("-nc").data]) ++
    sf.include_dirs.map (fun d => ("+incdir+").data ++ d) ++
    vcsDefineArgs sf.defines ++
    [("+incdir+").data ++ dirname sf.name] ++
    [sf.name]
  { argv := cmd :: ("-full64").data :: args,
    argsPath := st.output_path ++ ("/vcs_compile_verilog_file_").data ++
      sf.library_name ++ (".args").data,
    argsContent := joinNl args }

/-- The fields of `IVerilogInterface` read here (iverilog.py): `self._prefix`
and `self._output_path`. -/
structure IVState where
  prefixDir : Str
  output_path : Str
deriving DecidableEq

/-- The preprocessing output directory shared by iverilog.py lines 102-104 and
vivado.py lines 102-104: `<parent(output_path)>/preprocessed/<hash(parent(source))>`. -/
def preprocessOutputDir (output_path srcName : Str) : Str :=
  pathJoin (pathJoin (pyParent output_path) ("preprocessed").data)
    (hash_string (pyParent srcName))

/-- `IVerilogInterface.compile_verilog_file_command` (iverilog.py lines 98-127). -/
def iverilogCompileVerilogFileCommand (st : IVState) (sf : SourceFile) : CompileCmd :=
  let cmd := pathJoin st.prefixDir ("iverilog").data
  let outputFile := pathJoin (preprocessOutputDir st.output_path sf.name) (basename sf.name)
  let args : List Str :=
    [("-E").data, ("-g2012").data, ("-o").data, outputFile] ++
    getOption ("iverilog_flags").data sf.compile_options ++
    sf.include_dirs.flatMap (fun d => [("-I").data, d]) ++
    iverilogDefineArgs sf.defines ++
    [("-I").data, dirname sf.name] ++
    [sf.name]
  { argv := cmd :: args,
    argsPath := st.output_path ++ ("/iverilog_compile_verilog_file_").data ++
      sf.library_name ++ (".args").data,
    argsContent := joinNl args ++ ['\n'] }

/-- The fields of `VivadoInterface` read here (vivado.py). -/
structure VivadoState where
  prefixDir : Str
  output_path : Str
deriving DecidableEq

/-- `VivadoInterface.compile_verilog_file_command` (vivado.py lines 98-129).
Note line 129: the returned vector is `[cmd, '-f', argsfile]`, not the token
vector that was persisted. -/
def vivadoCompileVerilogFileCommand (st : VivadoState) (sf : SourceFile) : CompileCmd :=
  let cmd := pathJoin st.prefixDir ("xvlog").data
  let argsfile := st.output_path ++ ("/xvlog_").data ++ sf.library_name ++ (".args").data
  let args : List Str :=
    [("-sv").data, ("-work").data,
      sf.library_name ++ '=' :: pathJoin (pathJoin st.output_path ("libraries").data)
        sf.library_name] ++
    getOption ("xvlog_flags").data sf.compile_options ++
    sf.include_dirs.flatMap (fun d => [("-i").data, d]) ++
    sf.defines.flatMap (fun kv => [("-d").data, kv.1 ++ '=' :: escapeQuotes kv.2]) ++
    [("-i").data, dirname sf.name] ++
    [sf.name] ++
    [("-log").data, pathJoin st.output_path
      (("xvlog_").data ++ splitextStem (basename sf.name) ++ (".log").data)]
  { argv := [cmd, ("-f").data, argsfile],
    argsPath := argsfile,
    argsContent := joinNl args }

/-- The `CompileError` exception (vunit.exceptions). -/
inductive CompileError
  | mk
deriving DecidableEq

/-- `VCSInterface.compile_source_file_command` (vcs.py lines 138-149). -/
def vcsCompileSourceFileCommand (st : VCSState) (sf : SourceFile) :
    Except CompileError CompileCmd :=
  if sf.is_vhdl then Except.ok (vcsCompileVhdlFileCommand st sf)
  else if sf.is_any_verilog then Except.ok (vcsCompileVerilogFileCommand st sf)
  else Except.error CompileError.mk

/-- `IVerilogInterface.compile_source_file_command` (iverilog.py lines 88-96). -/
def iverilogCompileSourceFileCommand (st : IVState) (sf : SourceFile) :
    Except CompileError CompileCmd :=
  if sf.is_any_verilog then Except.ok (iverilogCompileVerilogFileCommand st sf)
  else Except.error CompileError.mk

/-- Python-level failures of the `simulate` methods as written. -/
inductive PyErr
  | attributeError (name : Str)
  | nameError (name : Str)
deriving DecidableEq

/-- The per-test configuration fields read before the failure points. -/
structure SimConfig where
  library_name : Str
  entity_name : Str
deriving DecidableEq

/-- `VCSInterface.simulate` (vcs.py lines 281-316), modelled as the list of
run-step process invocations performed together with the outcome.  Line 291
reads `self._coverage_files`, which is assigned nowhere in the class (its
`__init__`, lines 89-109, never sets it and does not call a base initializer),
so every call raises `AttributeError` there, before the
`if not elaborate_only` gate at line 312 is ever reached. -/
def vcsSimulate (st : VCSState) (output_path test_suite_name : Str) (config : SimConfig)
    (elaborate_only : Bool) : List (List Str) × Except PyErr Bool :=
  let _launch_gui := st.gui && !elaborate_only
  let _coverage_file := pathJoin output_path ("simv.vdb").data
  ([], Except.error (PyErr.attributeError ("_coverage_files").data))

/-- `LEGAL_CHARS = string.printable` (iverilog.py line 175): the ASCII
characters with code points 33-126 plus the six whitespace characters. -/
def LEGAL_CHARS : List Char :=
  (List.range 94).map (fun n => Char.ofNat (33 + n)) ++
    [' ', '\t', '\n', '\r', '\x0b', '\x0c']

/-- `ILLEGAL_CHARS = ' <>"|:*%?\\/#&;()'` (iverilog.py line 176). -/
def ILLEGAL_CHARS : List Char :=
  [' ', '<', '>', '"', '|', ':', '*', '%', '?', '\\', '/', '#', '&', ';', '(', ')']

/-- The sanitized test name (iverilog.py lines 175-179): every character kept
iff it is in `LEGAL_CHARS` and not in `ILLEGAL_CHARS`, otherwise replaced by
`'_'`, with one `'_'` appended. -/
def iverilogTestName (test_suite_name : Str) : Str :=
  test_suite_name.map
    (fun c => if LEGAL_CHARS.contains c && !ILLEGAL_CHARS.contains c then c else '_') ++ ['_']

/-- `IVerilogInterface.simulate` (iverilog.py lines 171-210), modelled as the
list of run-step invocations together with the outcome.  After deriving the
sanitized name and building `cmd` (lines 175-194), line 196 evaluates
`"\n".join(generics)` where the bare name `generics` is not defined in the
function, so every call raises `NameError` there; no process has been run and
the `if not elaborate_only` gate at line 203 is never reached. -/
def iverilogSimulate (st : IVState) (output_path test_suite_name : Str) (config : SimConfig)
    (elaborate_only : Bool) : List (List Str) × Except PyErr Bool :=
  let test_name := iverilogTestName test_suite_name
  let vvp_path := dirname output_path ++ ("/elab/").data ++ test_name
  let _simv_exec := vvp_path ++ ("/simv").data
  let _simv_incr := vvp_path ++ ("/dir").data
  let _cmd : List Str := [pathJoin st.prefixDir ("vcs").data, ("-g2012").data, ("-s").data,
    config.library_name ++ '.' :: config.entity_name]
  ([], Except.error (PyErr.nameError ("generics").data))

/-- Result of `VCSInterface.create_library`: the directories that exist
afterwards, whether the setup file was rewritten, and its contents. -/
structure CreateResult where
  dirs : List Str
  wrote : Bool
  contents : Str
deriving DecidableEq

/-- `VCSInterface.create_library` (vcs.py lines 221-237).  `dirs` is the set of
existing directories (`file_exists`/`os.makedirs`); `setup` is the current
contents of the `synopsys_sim.setup` file.  (`abspath` is modelled as the
identity: the paths are taken to be absolute already.) -/
def createLibrary (library_name library_path : Str) (mapped : List (Str × Str))
    (dirs : List Str) (setup : Str) : CreateResult :=
  let dirs1 := if library_path ∈ dirs then dirs else dirs ++ [library_path]
  let dirs2 := if (library_path ++ ("/64/").data) ∈ dirs1 then dirs1
    else dirs1 ++ [library_path ++ ("/64/").data]
  if lookupDef library_name mapped = some library_path then
    ⟨dirs2, false, setup⟩
  else
    let f := SetupFile.parse setup
    ⟨dirs2, true, SetupFile.write ⟨insertDef library_name library_path f.libdefines,
      f.other_lines⟩⟩

/-- A flat file-system model for `write_file`: overwriting association of path
to contents. -/
def fsWrite (fs : List (Str × Str)) (path content : Str) : List (Str × Str) :=
  (path, content) :: fs.filter (fun kv => kv.1 != path)

/-- Reading a file back from the file-system model. -/
def fsRead (fs : List (Str × Str)) (path : Str) : Option Str := lookupDef path fs

/-- C1 (amended).  The claim's round-trip law does not hold for arbitrary
mappings (see `c1_roundtrip_counterexample`); it holds for every mapping whose
names are nonempty `[a-zA-Z0-9_]+` words with distinct names and whose paths
contain no `#` and no line-boundary character (`\n`, `\r`, VT, FF, FS, GS,
RS, NEL, U+2028, U+2029) and do not start with regex whitespace, and for
preserved lines that do not match the library-definition regex and contain no
line-boundary character.  Under these conditions write-parse-write is
byte-identical, the
preserved lines survive parse-then-write unmodified in order, and the
library-definition lines are rewritten sorted by name. -/
theorem c1_setup_roundtrip (f : SetupFile)
    (hdef : ∀ kv ∈ f.libdefines, WFDefEntry kv)
    (hnd : (f.libdefines.map Prod.fst).Nodup)
    (hoth : ∀ l ∈ f.other_lines, matchLibdefine l = none ∧ ∀ c ∈ l, isLineBreak c = false) :
    SetupFile.write (SetupFile.parse (SetupFile.write f)) = SetupFile.write f ∧
    (f.other_lines ≠ [] ∨ f.libdefines ≠ [] →
      (SetupFile.parse (SetupFile.write f)).other_lines = f.other_lines ∧
      (SetupFile.parse (SetupFile.write f)).libdefines = sortPairs f.libdefines) := by
  refine ⟨write_parse_write f hdef hnd hoth, fun hne => ?_⟩
  rw [parse_write f hdef hnd hoth hne]
  exact ⟨rfl, rfl⟩

/-- C1 counterexample: for the mapping `{"n": "a#b"}` (a path containing `#`)
with no preserved lines, writing, parsing and writing again is not
byte-identical: the parse regex truncates the path at the `#`, so the second
write produces `"n : a\n"` instead of `"n : a#b\n"`. -/
theorem c1_roundtrip_counterexample :
    SetupFile.write (SetupFile.parse (SetupFile.write
        ⟨[(("n").data, ("a#b").data)], []⟩)) ≠
      SetupFile.write ⟨[(("n").data, ("a#b").data)], []⟩ := by decide

/-- C1 witness: the amended round-trip law holds at a concrete setup file with
two out-of-order definitions and one preserved comment line. -/
theorem c1_setup_roundtrip_witness :
    SetupFile.write (SetupFile.parse (SetupFile.write
        ⟨[(("b").data, ("2").data), (("a").data, ("1").data)], [("# hdr").data]⟩)) =
      SetupFile.write
        ⟨[(("b").data, ("2").data), (("a").data, ("1").data)], [("# hdr").data]⟩ ∧
    (SetupFile.parse (SetupFile.write
        ⟨[(("b").data, ("2").data), (("a").data, ("1").data)], [("# hdr").data]⟩)).other_lines =
      [("# hdr").data] :=
  ⟨(c1_setup_roundtrip ⟨[(("b").data, ("2").data), (("a").data, ("1").data)],
      [("# hdr").data]⟩ (by decide) (by decide) (by decide)).1,
   ((c1_setup_roundtrip ⟨[(("b").data, ("2").data), (("a").data, ("1").data)],
      [("# hdr").data]⟩ (by decide) (by decide) (by decide)).2
      (Or.inl (by decide))).1⟩

/-- Concrete fixtures used by the concrete-input theorems. -/
def sampleVCS : VCSState := ⟨("/p").data, ("/o").data, ("info").data, false⟩

def sampleIV : IVState := ⟨("/p").data, ("/o").data⟩

def sampleVivado : VivadoState := ⟨("/p").data, ("/o").data⟩

def sampleSV : SourceFile :=
  ⟨("/s/a.sv").data, ("L").data, [], [], [], VHDLStd.std2008, FileKind.systemVerilog⟩

def sampleSV2 : SourceFile :=
  ⟨("/t/b.sv").data, ("L").data, [], [], [], VHDLStd.std2008, FileKind.systemVerilog⟩

def sampleVHDL93 : SourceFile :=
  ⟨("/s/a.vhd").data, ("L").data, [], [], [], VHDLStd.std1993, FileKind.vhdl⟩

/-- C2 (amended).  Only the iverilog builder satisfies the claim: its returned
vector is the binary path followed by exactly the persisted tokens, and the
`.args` file is those tokens one per line with a trailing newline.  The VCS
builder inserts an extra `-full64` token right after the binary that is not
persisted, and writes the file without a trailing newline; the Vivado builder
persists the tokens but returns `[binary, '-f', argsfile]` instead. -/
theorem c2_args_persistence (ist : IVState) (vst : VCSState) (xst : VivadoState)
    (sf : SourceFile) :
    (iverilogCompileVerilogFileCommand ist sf).argv.head? =
      some (pathJoin ist.prefixDir ("iverilog").data) ∧
    (iverilogCompileVerilogFileCommand ist sf).argsContent =
      joinNl ((iverilogCompileVerilogFileCommand ist sf).argv.drop 1) ++ ['\n'] ∧
    (vcsCompileVerilogFileCommand vst sf).argv.take 2 =
      [pathJoin vst.prefixDir ("vlogan").data, ("-full64").data] ∧
    (vcsCompileVerilogFileCommand vst sf).argsContent =
      joinNl ((vcsCompileVerilogFileCommand vst sf).argv.drop 2) ∧
    (vivadoCompileVerilogFileCommand xst sf).argv =
      [pathJoin xst.prefixDir ("xvlog").data, ("-f").data,
        (vivadoCompileVerilogFileCommand xst sf).argsPath] :=
  ⟨rfl, rfl, rfl, rfl, rfl⟩

/-- C2 counterexample: at a concrete source file, neither the VCS nor the
Vivado builder persists exactly the returned tokens (minus the binary path)
with a trailing newline: VCS's `-full64` is returned but not persisted and its
file lacks the trailing newline; Vivado returns `-f argsfile` instead of the
tokens. -/
theorem c2_args_persistence_counterexample :
    ¬((vcsCompileVerilogFileCommand sampleVCS sampleSV).argsContent =
        joinNl ((vcsCompileVerilogFileCommand sampleVCS sampleSV).argv.drop 1) ++ ['\n']) ∧
    ¬((vivadoCompileVerilogFileCommand sampleVivado sampleSV).argsContent =
        joinNl ((vivadoCompileVerilogFileCommand sampleVivado sampleSV).argv.drop 1) ++
          ['\n']) := by
  decide

/-- C3: both cited `simulate` methods fail before the run-step gate on every
input: `VCSInterface.simulate` raises `AttributeError` on the never-assigned
`self._coverage_files` (vcs.py line 291), and `IVerilogInterface.simulate`
raises `NameError` on the undefined bare name `generics` (iverilog.py line
196).  No run-step process invocation happens (the invocation list is empty),
but the call never returns success either, contradicting the claim. -/
theorem c3_simulate_crashes (vst : VCSState) (ist : IVState) (out ts : Str)
    (cfg : SimConfig) (eo : Bool) :
    vcsSimulate vst out ts cfg eo =
      ([], Except.error (PyErr.attributeError ("_coverage_files").data)) ∧
    iverilogSimulate ist out ts cfg eo =
      ([], Except.error (PyErr.nameError ("generics").data)) :=
  ⟨rfl, rfl⟩

def setKind (sf : SourceFile) (k : FileKind) : SourceFile := { sf with kind := k }

/-- C4: `compile_source_file_command` raises `CompileError` exactly for file
kinds with no known compilation procedure (neither VHDL nor a Verilog dialect
for VCS; any non-Verilog kind for iverilog), and returns the corresponding
tool command for the supported kinds. -/
theorem c4_unknown_file_kind (vst : VCSState) (ist : IVState) (sf : SourceFile) :
    (vcsCompileSourceFileCommand vst sf = Except.error CompileError.mk ↔
      sf.is_vhdl = false ∧ sf.is_any_verilog = false) ∧
    (iverilogCompileSourceFileCommand ist sf = Except.error CompileError.mk ↔
      sf.is_any_verilog = false) ∧
    vcsCompileSourceFileCommand vst (setKind sf FileKind.vhdl) =
      Except.ok (vcsCompileVhdlFileCommand vst (setKind sf FileKind.vhdl)) ∧
    vcsCompileSourceFileCommand vst (setKind sf FileKind.verilog) =
      Except.ok (vcsCompileVerilogFileCommand vst (setKind sf FileKind.verilog)) ∧
    vcsCompileSourceFileCommand vst (setKind sf FileKind.systemVerilog) =
      Except.ok (vcsCompileVerilogFileCommand vst (setKind sf FileKind.systemVerilog)) ∧
    vcsCompileSourceFileCommand vst (setKind sf FileKind.unknown) =
      Except.error CompileError.mk ∧
    iverilogCompileSourceFileCommand ist (setKind sf FileKind.verilog) =
      Except.ok (iverilogCompileVerilogFileCommand ist (setKind sf FileKind.verilog)) ∧
    iverilogCompileSourceFileCommand ist (setKind sf FileKind.systemVerilog) =
      Except.ok (iverilogCompileVerilogFileCommand ist (setKind sf FileKind.systemVerilog)) ∧
    iverilogCompileSourceFileCommand ist (setKind sf FileKind.vhdl) =
      Except.error CompileError.mk := by
  refine ⟨?_, ?_, rfl, rfl, rfl, rfl, rfl, rfl, rfl⟩
  · cases hk : sf.kind <;>
      simp [vcsCompileSourceFileCommand, SourceFile.is_vhdl, SourceFile.is_any_verilog, hk]
  · cases hk : sf.kind <;>
      simp [iverilogCompileSourceFileCommand, SourceFile.is_vhdl, SourceFile.is_any_verilog, hk]

lemma mem_ite_append_self (dirs : List Str) (x : Str) :
    x ∈ (if x ∈ dirs then dirs else dirs ++ [x]) := by
  by_cases h : x ∈ dirs
  · simp [h]
  · simp [h]

lemma mem_ite_append_of_mem (dirs : List Str) (y x : Str) (h : x ∈ dirs) :
    x ∈ (if y ∈ dirs then dirs else dirs ++ [y]) := by
  by_cases hy : y ∈ dirs
  · simpa [hy]
  · simp [hy, h]

lemma insertDef_ne_nil (n p : Str) (d : List (Str × Str)) : insertDef n p d ≠ [] := by
  cases d with
  | nil => simp [insertDef]
  | cons kv rest =>
    obtain ⟨k, v⟩ := kv
    by_cases hk : k = n
    · simp [insertDef, hk]
    · simp [insertDef, hk]

lemma lookupDef_parse_write_insert (name path : Str) (c0 : Str)
    (hn : name ≠ [] ∧ name.all isWordChar = true)
    (hp : ('#' ∉ path ∧ path.all (fun c => !isLineBreak c) = true) ∧
      headNotSpace path = true) :
    lookupDef name
      (SetupFile.parse (SetupFile.write
        ⟨insertDef name path (SetupFile.parse c0).libdefines,
          (SetupFile.parse c0).other_lines⟩)).libdefines = some path := by
  obtain ⟨hwf0, hnd0, hoth0⟩ := parse_wf c0
  have hwfe : WFDefEntry (name, path) := ⟨hn.1, hn.2, hp.1, hp.2⟩
  set f : SetupFile := ⟨insertDef name path (SetupFile.parse c0).libdefines,
    (SetupFile.parse c0).other_lines⟩ with hf
  have hdef : ∀ kv ∈ f.libdefines, WFDefEntry kv := insertDef_wf _ _ _ hwf0 hwfe
  have hnd : (f.libdefines.map Prod.fst).Nodup := insertDef_keys_nodup _ _ _ hnd0
  have hne : f.other_lines ≠ [] ∨ f.libdefines ≠ [] := Or.inr (insertDef_ne_nil _ _ _)
  rw [parse_write f hdef hnd hoth0 hne]
  have hperm := sortPairs_perm f.libdefines
  rw [lookupDef_perm _ _ hperm (sortPairs_keys_nodup _ hnd) name]
  exact lookupDef_insertDef_self name path _

/-- C5 (amended).  The guard behaves as claimed: when the supplied mappings
already associate the name with exactly the directory, `create_library`
returns without rewriting the setup file.  But calling it twice with the same
arguments is not write-idempotent: when the mapping is absent from the
supplied dict, both calls rewrite the file (see the counterexample).  The
second call is a no-op against the setup file (and creates no directory)
precisely when it receives the mappings re-read from the file - as
`setup_library_mapping` does via `_get_mapped_libraries` - provided the name
is a `[a-zA-Z0-9_]+` word and the path survives the round trip: no `#`, no
line-boundary character, no leading regex whitespace. -/
theorem c5_create_library_idempotent (name path : Str)
    (mapped mapped2 : List (Str × Str)) (dirs : List Str) (c0 : Str)
    (hn : name ≠ [] ∧ name.all isWordChar = true)
    (hp : ('#' ∉ path ∧ path.all (fun c => !isLineBreak c) = true) ∧
      headNotSpace path = true)
    (hhit : lookupDef name mapped2 = some path)
    (hmiss : lookupDef name mapped ≠ some path) :
    (createLibrary name path mapped2 dirs c0).wrote = false ∧
    (createLibrary name path mapped2 dirs c0).contents = c0 ∧
    (createLibrary name path mapped dirs c0).wrote = true ∧
    createLibrary name path
      (SetupFile.parse (createLibrary name path mapped dirs c0).contents).libdefines
      (createLibrary name path mapped dirs c0).dirs
      (createLibrary name path mapped dirs c0).contents =
      ⟨(createLibrary name path mapped dirs c0).dirs, false,
        (createLibrary name path mapped dirs c0).contents⟩ := by
  refine ⟨by simp [createLibrary, hhit], by simp [createLibrary, hhit],
    by simp [createLibrary, hmiss], ?_⟩
  have hc1 : (createLibrary name path mapped dirs c0).contents =
      SetupFile.write ⟨insertDef name path (SetupFile.parse c0).libdefines,
        (SetupFile.parse c0).other_lines⟩ := by
    simp [createLibrary, hmiss]
  have hlook : lookupDef name
      (SetupFile.parse (createLibrary name path mapped dirs c0).contents).libdefines =
      some path := by
    rw [hc1]
    exact lookupDef_parse_write_insert name path c0 hn hp
  have hdirs : (createLibrary name path mapped dirs c0).dirs =
      (if path ++ ("/64/").data ∈ (if path ∈ dirs then dirs else dirs ++ [path])
        then (if path ∈ dirs then dirs else dirs ++ [path])
        else (if path ∈ dirs then dirs else dirs ++ [path]) ++ [path ++ ("/64/").data]) := by
    by_cases hg : lookupDef name mapped = some path
    · exact absurd hg hmiss
    · simp [createLibrary, hg]
  have hmem1 : path ∈ (createLibrary name path mapped dirs c0).dirs := by
    rw [hdirs]
    exact mem_ite_append_of_mem _ _ _ (mem_ite_append_self dirs path)
  have hmem2 : path ++ ("/64/").data ∈ (createLibrary name path mapped dirs c0).dirs := by
    rw [hdirs]
    exact mem_ite_append_self _ _
  rw [createLibrary, if_pos hlook]
  simp [hmem1, hmem2]

/-- C5 counterexample: with the library not yet in the supplied mappings,
calling `create_library` twice with the same arguments rewrites the setup file
on both calls - the second call is not a no-op write-wise. -/
theorem c5_create_library_counterexample :
    (createLibrary ("a").data ("p").data [] [] []).wrote = true ∧
    (createLibrary ("a").data ("p").data []
      (createLibrary ("a").data ("p").data [] [] []).dirs
      (createLibrary ("a").data ("p").data [] [] []).contents).wrote = true := by
  decide

/-- C5 witness: the amended statement at `name = "a"`, `path = "p"`, an empty
setup file, a missing mapping for the writing call and a hitting mapping for
the guarded call. -/
theorem c5_create_library_idempotent_witness :
    (createLibrary ("a").data ("p").data [(("a").data, ("p").data)] [] []).wrote = false ∧
    (createLibrary ("a").data ("p").data [] [] []).wrote = true ∧
    createLibrary ("a").data ("p").data
      (SetupFile.parse (createLibrary ("a").data ("p").data [] [] []).contents).libdefines
      (createLibrary ("a").data ("p").data [] [] []).dirs
      (createLibrary ("a").data ("p").data [] [] []).contents =
      ⟨(createLibrary ("a").data ("p").data [] [] []).dirs, false,
        (createLibrary ("a").data ("p").data [] [] []).contents⟩ :=
  ⟨(c5_create_library_idempotent ("a").data ("p").data [] [(("a").data, ("p").data)] [] []
      (by decide) (by decide) (by decide) (by decide)).1,
   (c5_create_library_idempotent ("a").data ("p").data [] [(("a").data, ("p").data)] [] []
      (by decide) (by decide) (by decide) (by decide)).2.2.1,
   (c5_create_library_idempotent ("a").data ("p").data [] [(("a").data, ("p").data)] [] []
      (by decide) (by decide) (by decide) (by decide)).2.2.2⟩

/-- C6: the preprocessing output directory computed by the iverilog and Vivado
compile-command builders (iverilog.py/vivado.py lines 102-104) is the same for
two source files exactly when their parent directories are the same: the
directory name is a deterministic, collision-free function of the parent. -/
theorem c6_preprocess_outdir_collision_free (out : Str) (a b : SourceFile) :
    preprocessOutputDir out a.name = preprocessOutputDir out b.name ↔
      pyParent a.name = pyParent b.name := by
  constructor
  · intro h
    simp only [preprocessOutputDir, pathJoin, hash_string] at h
    simpa using List.append_cancel_left h
  · intro h
    simp only [preprocessOutputDir, pathJoin, hash_string, h]

/-- C7 (amended).  The language-standard token is the fixed mapping
`_vhdl_std_opt` of the declared revision, placed right after `-sparse_mem 20`
in the vector: 2002, 2008 and 2019 all map to `-vhdl08`, and 1993 - the
default fallback - maps to the empty string, which is appended as an
empty-string token (an empty line in the `.args` file) rather than the flag
being omitted.  All four revisions of the type are handled, so no revision
makes the builder fail. -/
theorem c7_vhdl_std_flag (st : VCSState) (sf : SourceFile) :
    (vcsCompileVhdlFileCommand st sf).argv[4]? = some (vcsVhdlStdOpt sf.vhdl_standard) ∧
    vcsVhdlStdOpt VHDLStd.std2002 = ("-vhdl08").data ∧
    vcsVhdlStdOpt VHDLStd.std2008 = ("-vhdl08").data ∧
    vcsVhdlStdOpt VHDLStd.std2019 = ("-vhdl08").data ∧
    vcsVhdlStdOpt VHDLStd.std1993 = [] :=
  ⟨rfl, rfl, rfl, rfl, rfl⟩

/-- C7 counterexample: compiling a VHDL-1993 file does not fall back to the
default by emitting no flag; the builder appends an empty-string token to the
argument vector (position 4, after `-sparse_mem 20`). -/
theorem c7_vhdl_std_flag_counterexample :
    ([] : Str) ∈ (vcsCompileVhdlFileCommand sampleVCS sampleVHDL93).argv ∧
    (vcsCompileVhdlFileCommand sampleVCS sampleVHDL93).argv[4]? = some [] := by
  decide

/-- Specification-side escaping: each double quote gets exactly one backslash
prefix, every other character is unchanged. -/
def escSpec (c : Char) : List Char := if c = '"' then ['\\', '"'] else [c]

lemma escapeQuotes_eq_flatMap (v : Str) : escapeQuotes v = v.flatMap escSpec := by
  induction v with
  | nil => rfl
  | cons c rest ih =>
    by_cases hc : c = '"'
    · simp [escapeQuotes, escSpec, hc, ih]
    · simp [escapeQuotes, escSpec, hc, ih]

lemma iverilogDefineArgs_length (ds : List (Str × Str)) :
    (iverilogDefineArgs ds).length = 2 * ds.length := by
  induction ds with
  | nil => rfl
  | cons kv t ih =>
    have hstep : iverilogDefineArgs (kv :: t) =
        [("-D").data, kv.1 ++ '=' :: escapeQuotes kv.2] ++ iverilogDefineArgs t := rfl
    rw [hstep, List.length_append, ih]
    show 2 + 2 * t.length = 2 * (t.length + 1)
    omega

/-- C8: the generated define flags escape each double quote in a macro value
exactly once (the builder's `value.replace('"', '\\"')` equals prefixing one
backslash to every quote and changing nothing else), one `+define+` token (VCS)
or one `-D name=value` flag pair (iverilog) is emitted per macro entry, and the
value `a"b` yields flag content `a\"b`. -/
theorem c8_define_flag_escaping (ds : List (Str × Str)) :
    vcsDefineArgs ds =
      ds.map (fun kv => ("+define+").data ++ kv.1 ++ '=' :: kv.2.flatMap escSpec) ∧
    iverilogDefineArgs ds =
      ds.flatMap (fun kv => [("-D").data, kv.1 ++ '=' :: kv.2.flatMap escSpec]) ∧
    (vcsDefineArgs ds).length = ds.length ∧
    (iverilogDefineArgs ds).length = 2 * ds.length ∧
    escapeQuotes ("a\"b").data = ("a\\\"b").data ∧
    vcsDefineArgs [(("M").data, ("a\"b").data)] = [("+define+M=a\\\"b").data] := by
  refine ⟨?_, ?_, by simp [vcsDefineArgs], iverilogDefineArgs_length ds, by decide, by decide⟩
  · simp [vcsDefineArgs, escapeQuotes_eq_flatMap]
  · simp [iverilogDefineArgs, escapeQuotes_eq_flatMap]

/-- One character of the sanitization: kept iff printable and not in the
shell-special/illegal set, otherwise replaced by an underscore. -/
def sanitizeChar (c : Char) : Char :=
  if LEGAL_CHARS.contains c && !ILLEGAL_CHARS.contains c then c else '_'

/-- C9: the sanitized test name has one character per input character plus a
single trailing underscore; position `i` holds the input character when it is
legal (printable and not shell-special) and `'_'` otherwise; and the example
identifier `lib.tb:Test#1 (x)` sanitizes to `lib.tb_Test_1__x__`. -/
theorem c9_test_name_sanitize (s : Str) :
    (iverilogTestName s).length = s.length + 1 ∧
    (∀ i : Nat, (iverilogTestName s)[i]? =
      if i = s.length then some '_' else (s[i]?).map sanitizeChar) ∧
    iverilogTestName ("lib.tb:Test#1 (x)").data = ("lib.tb_Test_1__x__").data := by
  refine ⟨by simp [iverilogTestName], ?_, by decide⟩
  intro i
  have hrw : iverilogTestName s = s.map sanitizeChar ++ ['_'] := rfl
  rw [hrw]
  by_cases hi : i < s.length
  · rw [if_neg (by omega), List.getElem?_append_left (by simpa using hi)]
    simp
  · by_cases he : i = s.length
    · subst he
      rw [if_pos rfl, List.getElem?_append_right (by simp)]
      simp
    · have hgt : s.length < i := by omega
      rw [if_neg he]
      have h1 : (s.map sanitizeChar ++ ['_'])[i]? = none :=
        List.getElem?_eq_none (by simp; omega)
      have h2 : s[i]? = none := List.getElem?_eq_none (by omega)
      rw [h1, h2]
      rfl

/-- C10 (implicit): every compile-command builder derives the `.args` file
path from the owning library's name (plus tool and operation), not from the
source file's own name, so two distinct files of the same library write to the
identical path, and the later write overwrites the earlier persisted argument
list. -/
theorem c10_argsfile_per_library (ist : IVState) (vst : VCSState) (xst : VivadoState)
    (a b : SourceFile) (h : a.library_name = b.library_name) (fs : List (Str × Str)) :
    (iverilogCompileVerilogFileCommand ist a).argsPath =
      (iverilogCompileVerilogFileCommand ist b).argsPath ∧
    (vcsCompileVerilogFileCommand vst a).argsPath =
      (vcsCompileVerilogFileCommand vst b).argsPath ∧
    (vcsCompileVhdlFileCommand vst a).argsPath =
      (vcsCompileVhdlFileCommand vst b).argsPath ∧
    (vivadoCompileVerilogFileCommand xst a).argsPath =
      (vivadoCompileVerilogFileCommand xst b).argsPath ∧
    fsRead (fsWrite (fsWrite fs (iverilogCompileVerilogFileCommand ist a).argsPath
        (iverilogCompileVerilogFileCommand ist a).argsContent)
        (iverilogCompileVerilogFileCommand ist b).argsPath
        (iverilogCompileVerilogFileCommand ist b).argsContent)
      (iverilogCompileVerilogFileCommand ist a).argsPath =
      some (iverilogCompileVerilogFileCommand ist b).argsContent := by
  have hp : (iverilogCompileVerilogFileCommand ist a).argsPath =
      (iverilogCompileVerilogFileCommand ist b).argsPath := by
    simp [iverilogCompileVerilogFileCommand, h]
  refine ⟨hp, by simp [vcsCompileVerilogFileCommand, h],
    by simp [vcsCompileVhdlFileCommand, h],
    by simp [vivadoCompileVerilogFileCommand, h], ?_⟩
  rw [hp]
  simp [fsRead, fsWrite, lookupDef]

/-- C10 witness: two concrete source files of the same library (`L`) with
different names get the same `.args` path, and writing both leaves the second
file's tokens at that path. -/
theorem c10_argsfile_per_library_witness :
    (iverilogCompileVerilogFileCommand sampleIV sampleSV).argsPath =
      (iverilogCompileVerilogFileCommand sampleIV sampleSV2).argsPath ∧
    fsRead (fsWrite (fsWrite [] (iverilogCompileVerilogFileCommand sampleIV sampleSV).argsPath
        (iverilogCompileVerilogFileCommand sampleIV sampleSV).argsContent)
        (iverilogCompileVerilogFileCommand sampleIV sampleSV2).argsPath
        (iverilogCompileVerilogFileCommand sampleIV sampleSV2).argsContent)
      (iverilogCompileVerilogFileCommand sampleIV sampleSV).argsPath =
      some (iverilogCompileVerilogFileCommand sampleIV sampleSV2).argsContent :=
  ⟨(c10_argsfile_per_library sampleIV sampleVCS sampleVivado sampleSV sampleSV2 rfl []).1,
   (c10_argsfile_per_library sampleIV sampleVCS sampleVivado sampleSV sampleSV2
      rfl []).2.2.2.2⟩
